import Mathlib

/-!
# Verification of the Comparative-Analysis core

A shallow embedding of the statistical core of the Comparative-Analysis
repository (`metagenomic_profile.py`, `enrichment.py`, `pcoa.py`,
`normalization.py`), together with theorems settling the frozen claims
about it.

Modelling conventions:
* Python floats are modelled as exact rationals `ℚ`; `float('nan')`
  results of the scipy test statistics are modelled by the variant
  `PVal.nan`, and the statistic functions themselves (external scipy
  collaborators) are parameters of the embedding.
* Python exceptions (`AttributeError`, `KeyError`, `IndexError`,
  `ValueError` from `math.log10`) are modelled by `Option`, `none`
  meaning the call raises and produces nothing.
* Python `dict` is modelled as an insertion-ordered association list:
  setting an existing key updates it in place, setting a fresh key
  appends it at the end.
* `list.sort` / `sorted` in Python are stable sorts; they are modelled
  by `List.insertionSort`, which is also stable, so the two agree for
  every (total, transitive) comparison used here.
-/

namespace CompAnalysis

/-- A scipy test statistic result: either a real p-value or `NaN`
(as produced for degenerate, e.g. zero-variance, inputs). -/
inductive PVal where
  | nan : PVal
  | val : ℚ → PVal
deriving DecidableEq

/-- Insertion-ordered Python `dict` write `d[k] = v`: update the entry in
place if the key is present, otherwise append it at the end. -/
def dictSet {α : Type} (d : List (String × α)) (k : String) (v : α) :
    List (String × α) :=
  if d.any (fun e => e.1 = k) then
    d.map (fun e => if e.1 = k then (e.1, v) else e)
  else d ++ [(k, v)]

/-- Python `d[k].append(s)` on a `dict` of lists: extend the list stored
under `k` (every entry whose key is `k`; keys are unique in a `dict`). -/
def dictAppend {α : Type} (d : List (String × List α)) (k : String) (s : α) :
    List (String × List α) :=
  d.map (fun e => if e.1 = k then (e.1, e.2 ++ [s]) else e)

/-- Python `d[k]` read access, `none` modelling a `KeyError`. -/
def dictLookup {α : Type} (d : List (String × α)) (k : String) : Option α :=
  (d.find? (fun e => e.1 = k)).map (fun e => e.2)

/-- Python `dict(list_of_pairs)`: later pairs overwrite earlier ones,
keeping the first-insertion position. -/
def pyDict {α : Type} (l : List (String × α)) : List (String × α) :=
  l.foldl (fun d kv => dictSet d kv.1 kv.2) []

section Corrections

/-!
## CorrectionAlgorithms (`enrichment.py`)
-/

/-- `__bonferonni_correction` from `enrichment.py`:
`p_adjust = p*n if p*n < 1.0 else 1.0` for each `p`, with
`n = len(pvalues)`. -/
def bonferonni_correction (pvalues : List ℚ) : List ℚ :=
  let n : ℚ := pvalues.length
  pvalues.map (fun p => if p * n < 1 then p * n else 1)

/-- The comparison key used by `sorted(pvalues.items(), key=itemgetter(1))`:
order the `(label, p)` pairs by their p-value. -/
def sndLE (a b : String × ℚ) : Prop := a.2 ≤ b.2

instance : DecidableRel sndLE := fun a b => inferInstanceAs (Decidable (a.2 ≤ b.2))

instance : IsTotal (String × ℚ) sndLE := ⟨fun a b => le_total a.2 b.2⟩

instance : IsTrans (String × ℚ) sndLE := ⟨fun _ _ _ h h' => le_trans h h'⟩

/-- `__fdr_correction` from `enrichment.py`: sort the `(label, p)` pairs
ascending by p-value; the pair at 0-based position `i` becomes
`(lbl, p * (float(n) / (i + 1)))` where `n = len(pvalues)`.  The `FDR`
rate argument of the Python function is never used in its body, so it
is omitted here.  No monotonicity-enforcement pass is applied. -/
def fdr_correction (pvalues : List (String × ℚ)) : List (String × ℚ) :=
  let sorted_values := pvalues.insertionSort sndLE
  let n : ℚ := pvalues.length
  sorted_values.enum.map (fun iv => (iv.2.1, iv.2.2 * (n / (iv.1 + 1))))

end Corrections

section WriteToFile

/-!
## Writing enrichment results (`enrichment.py`)
-/

/-- Python `round` to an integer: banker's rounding (round half to even). -/
def roundHalfEven (q : ℚ) : ℤ :=
  let f := ⌊q⌋
  let r := q - f
  if r < 1/2 then f
  else if 1/2 < r then f + 1
  else if Even f then f else f + 1

/-- Python `round(x, d)`: round to `d` digits after the decimal point
(`d` may be negative). -/
def pyRound (x : ℚ) (d : ℤ) : ℚ := (roundHalfEven (x * 10 ^ d) : ℚ) / 10 ^ d

/-- `__round_sig` from `enrichment.py`:
`round(x, n - int(math.floor(math.log10(x))) - 1)`.
`math.log10(x)` raises a `ValueError` (math domain error) for `x ≤ 0`,
modelled as `none`; for `x > 0`, `Int.log 10 x = ⌊log10 x⌋` exactly. -/
def round_sig (x : ℚ) (n : ℤ) : Option ℚ :=
  if x ≤ 0 then none
  else some (pyRound x (n - Int.log 10 x - 1))

/-- One line of the output `.tab` file: either a full
`name\tp-val\tenriched-in` row or a `name\tn/a` row. -/
inductive OutRow where
  | full : String → ℚ → String → OutRow
  | na : String → OutRow
deriving DecidableEq

/-- The order used by Python's `p_values.sort()` on the
`(p, attribute, enriched_in)` tuples: lexicographic comparison, i.e.
ascending p-value, ties broken by attribute name, then by class label. -/
def rowLE (a b : ℚ × String × String) : Prop :=
  a.1 < b.1 ∨ (a.1 = b.1 ∧
    (a.2.1 < b.2.1 ∨ (a.2.1 = b.2.1 ∧ a.2.2 ≤ b.2.2)))

instance : DecidableRel rowLE := fun a b =>
  inferInstanceAs (Decidable (a.1 < b.1 ∨ (a.1 = b.1 ∧
    (a.2.1 < b.2.1 ∨ (a.2.1 = b.2.1 ∧ a.2.2 ≤ b.2.2)))))

instance : IsTotal (ℚ × String × String) rowLE := ⟨by
  intro a b
  rcases lt_trichotomy a.1 b.1 with h | h | h
  · exact Or.inl (Or.inl h)
  · rcases lt_trichotomy a.2.1 b.2.1 with h' | h' | h'
    · exact Or.inl (Or.inr ⟨h, Or.inl h'⟩)
    · rcases le_total a.2.2 b.2.2 with h'' | h''
      · exact Or.inl (Or.inr ⟨h, Or.inr ⟨h', h''⟩⟩)
      · exact Or.inr (Or.inr ⟨h.symm, Or.inr ⟨h'.symm, h''⟩⟩)
    · exact Or.inr (Or.inr ⟨h.symm, Or.inl h'⟩)
  · exact Or.inr (Or.inl h)⟩

instance : IsTrans (ℚ × String × String) rowLE := ⟨by
  rintro a b c (h1 | ⟨e1, h1⟩) (h2 | ⟨e2, h2⟩)
  · exact Or.inl (lt_trans h1 h2)
  · exact Or.inl (by rw [← e2]; exact h1)
  · exact Or.inl (by rw [e1]; exact h2)
  · refine Or.inr ⟨e1.trans e2, ?_⟩
    rcases h1 with h1 | ⟨f1, g1⟩ <;> rcases h2 with h2 | ⟨f2, g2⟩
    · exact Or.inl (lt_trans h1 h2)
    · exact Or.inl (by rw [← f2]; exact h1)
    · exact Or.inl (by rw [f1]; exact h2)
    · exact Or.inr ⟨f1.trans f2, le_trans g1 g2⟩⟩

/-- Rendering one full row inside `__write_to_file`'s loop: the written
p-value is `__round_sig(tp[0])` (`n = 4` significant digits); `none`
models the `ValueError` raised on a non-positive p-value.  The `"%.12f"`
decimal formatting with trailing-zero stripping is value-preserving at
this precision and is abstracted away. -/
def renderRow (t : ℚ × String × String) : Option OutRow :=
  (round_sig t.1 4).map (fun r => OutRow.full t.2.1 r t.2.2)

/-- `__write_to_file` from `enrichment.py`: sort the
`(p, attribute, enriched-in)` tuples with Python `list.sort()`
(lexicographic), write one full row per tuple, then one `n/a` row per
entry of `nans`, in their given order.  `none` models a raised
`ValueError` (no complete file produced). -/
def write_to_file (p_values : List (ℚ × String × String))
    (nans : List (PVal × String)) : Option (List OutRow) :=
  ((p_values.insertionSort rowLE).mapM renderRow).map
    (fun mains => mains ++ nans.map (fun n => OutRow.na n.2))

end WriteToFile

section Enrichment

/-!
## The per-feature enrichment scan (`__enrichment` in `enrichment.py`)
-/

/-- `numpy.nanmean` on a column: abundance values are plain rationals
(no NaN entries), so this is the arithmetic mean. -/
def nanmean (l : List ℚ) : ℚ := l.sum / l.length

/-- The main loop of `__enrichment`: for each attribute (feature) of the
two class DataFrames, compute the direction label from the two column
means and run the test statistic `test` on the two columns; a NaN
p-value routes the attribute to the `nans` bucket, otherwise the tuple
`(p, attr, directionality)` joins the `pvals` list.  Columns are
accessed through `col1`/`col2` (the columns of `df1`/`df2`), and `test`
is the scipy statistic passed in as a first-class value. -/
def enrichmentScan (test : List ℚ → List ℚ → PVal) (label1 label2 : String)
    (col1 col2 : String → List ℚ) :
    List String → List (ℚ × String × String) × List (PVal × String)
  | [] => ([], [])
  | attr :: rest =>
    match test (col1 attr) (col2 attr) with
    | PVal.nan =>
      ((enrichmentScan test label1 label2 col1 col2 rest).1,
       (PVal.nan, attr) :: (enrichmentScan test label1 label2 col1 col2 rest).2)
    | PVal.val p =>
      ((p, attr,
        if nanmean (col1 attr) > nanmean (col2 attr) then label1
        else if nanmean (col2 attr) > nanmean (col1 attr) then label2
        else "n/a") :: (enrichmentScan test label1 label2 col1 col2 rest).1,
       (enrichmentScan test label1 label2 col1 col2 rest).2)

end Enrichment

section ProfileModel

/-!
## The profile data model (`metagenomic_profile.py`, `normalization.py`)
-/

/-- A pandas DataFrame of abundance data: ordered feature columns and
ordered sample rows; each row is a sample identifier together with its
values, aligned with `cols`. -/
structure DFrame where
  cols : List String
  rows : List (String × List ℚ)
deriving DecidableEq

/-- A metagenomic profile: abundance data, the selected metadata column
(sample identifier × grouping value), and the `references` dict mapping
class name to the ordered list of member sample identifiers. -/
structure Profile where
  abundance : DFrame
  metadata : List (String × String)
  references : List (String × List String)
deriving DecidableEq

/-- `__normalize_dataframe` from `normalization.py`:
`df.div(df.sum(axis=1), axis=0)` divides every row elementwise by that
row's sum.  (In pandas a zero row sum produces non-finite entries; the
claims below only concern rows with non-zero sum.) -/
def normalize_dataframe (df : DFrame) : DFrame :=
  ⟨df.cols, df.rows.map (fun r => (r.1, r.2.map (fun x => x / r.2.sum)))⟩

/-- `relative_normalization` from `normalization.py`: replace the
profile's abundance matrix by its row-normalized version (the file write
it also performs is outside the data model). -/
def relative_normalization (p : Profile) : Profile :=
  { p with abundance := normalize_dataframe p.abundance }

/-- The comparison used by `self.metadata.sort(columns=label)`: order the
`(sample, grouping-value)` pairs by grouping value.  (pandas' default
sort is not guaranteed stable, but any sort by value produces the same
runs of equal values, hence the same class membership.) -/
def mdLE (a b : String × String) : Prop := a.2 ≤ b.2

instance : DecidableRel mdLE := fun a b => inferInstanceAs (Decidable (a.2 ≤ b.2))

instance : IsTotal (String × String) mdLE := ⟨fun a b => le_total a.2 b.2⟩

instance : IsTrans (String × String) mdLE := ⟨fun _ _ _ h h' => le_trans h h'⟩

/-- The class name of grouping value `v`: `class_names[v]` when a mapping
is supplied (`none` models the `KeyError` on a missing entry), else
`"class_" + str(v)`. -/
def className (class_names : Option (List (String × String))) (v : String) :
    Option String :=
  match class_names with
  | none => some ("class_" ++ v)
  | some d => dictLookup d v

/-- The `while` loop of `metagenomic_profile.__init__` building
`references`: walk the sorted metadata; on the same grouping value as
the previous sample, append the sample to the current class list; on a
value change, set the class entry to a fresh list (a plain `dict` write,
which overwrites any existing entry of that name) and append the
sample. -/
def refLoop (cn : Option (List (String × String))) :
    List (String × String) → String → List (String × List String) →
    Option (List (String × List String))
  | [], _, refs => some refs
  | (samp, v) :: rest, refType, refs =>
    if v = refType then
      (className cn refType).bind
        (fun k => refLoop cn rest refType (dictAppend refs k samp))
    else
      (className cn v).bind
        (fun k => refLoop cn rest v (dictAppend (dictSet refs k []) k samp))

/-- Building `references` in `metagenomic_profile.__init__`: sort the
`(sample, grouping-value)` pairs by value, seed the dict with the first
sample's class, and run the grouping loop over the rest.  `none` models
the `IndexError` on empty metadata and the `KeyError` on a missing
`class_names` entry. -/
def buildReferences (cn : Option (List (String × String)))
    (md : List (String × String)) : Option (List (String × List String)) :=
  match md.insertionSort mdLE with
  | [] => none
  | (s0, v0) :: rest =>
    (className cn v0).bind
      (fun k0 => refLoop cn rest v0 (dictAppend (dictSet [] k0 []) k0 s0))

/-- The run-structure of the grouping loop, used to reason about
`refLoop`: collect the current run and recurse on value changes. -/
def refRuns (cn : Option (List (String × String))) :
    List (String × String) → String → String → List String →
    Option (List (String × List String))
  | [], _, kcur, cur => some [(kcur, cur)]
  | (samp, v) :: rest, refType, kcur, cur =>
    if v = refType then refRuns cn rest refType kcur (cur ++ [samp])
    else
      (className cn v).bind
        (fun k => (refRuns cn rest v k [samp]).map (fun out => (kcur, cur) :: out))

/-- A metadata DataFrame before column selection: ordered metadata
columns and sample rows of string-valued cells aligned with `cols`. -/
structure MFrame where
  cols : List String
  rows : List (String × List String)
deriving DecidableEq

/-- The pair of frames `metagenomic_profile.__init__` works on while
loading and filtering. -/
structure LoadState where
  abundance : DFrame
  metadata : MFrame
deriving DecidableEq

/-- `pandas.DataFrame.drop(names)`: the new frame without the named
rows.  (This is the value the source discards.) -/
def dropRows {α : Type} (rows : List (String × α)) (names : List String) :
    List (String × α) :=
  rows.filter (fun r => !(names.contains r.1))

/-- `__filter_samples_by_name` from `metagenomic_profile.py`:
`self.abundance_data.drop(names)` and `self.metadata.drop(names)` return
new frames, and without `inplace=True` or an assignment back both
results are discarded — the state is unchanged. -/
def filter_samples_by_name (st : LoadState) (names : List String) : LoadState :=
  let _dropped_abundance := dropRows st.abundance.rows names
  let _dropped_metadata := dropRows st.metadata.rows names
  st

/-- The comparison `this_val <op> value` used by
`__filter_samples_by_rule`; an unknown operator leaves the flag
`False`. -/
def pyCompare (op : String) (this_val value : String) : Bool :=
  if op = "=" then this_val = value
  else if op = "!=" then this_val ≠ value
  else if op = ">" then value < this_val
  else if op = "<" then this_val < value
  else false

/-- `__filter_samples_by_rule` from `metagenomic_profile.py`: iterate
over the metadata index, evaluate the rule, and for matching samples
call `.drop(sample)` on both frames — again without `inplace` or
assignment, so each iteration leaves the state unchanged. -/
def filter_samples_by_rule (st : LoadState) (op value : String)
    (label : Option String) : LoadState :=
  st.metadata.rows.foldl (fun acc sample =>
    let lbl := label.getD acc.metadata.cols.headI
    let this_val := ((acc.metadata.rows.find? (fun r => r.1 = sample.1)).map
      (fun r => r.2.getD (acc.metadata.cols.indexOf lbl) "")).getD ""
    let boolean := pyCompare op this_val value
    let _dropped_abundance :=
      if boolean then dropRows acc.abundance.rows [sample.1] else acc.abundance.rows
    let _dropped_metadata :=
      if boolean then dropRows acc.metadata.rows [sample.1] else acc.metadata.rows
    acc) st

/-- Transpose an abundance frame (rows become columns). -/
def transposeDF (df : DFrame) : DFrame :=
  ⟨df.rows.map Prod.fst,
   df.cols.enum.map (fun jc => (jc.2, df.rows.map (fun r => r.2.getD jc.1 0)))⟩

/-- `__check_abundance_data_shape`: transpose the abundance data when its
first row label is not a metadata sample id (i.e. the file was stored
feature-major). -/
def check_abundance_data_shape (ab : DFrame) (mf : MFrame) : DFrame :=
  if (mf.rows.map Prod.fst).contains ab.rows.headI.1 then ab else transposeDF ab

/-- Selection of the grouping column: a missing requested label is a
`KeyError` answered by `sys.exit(0)` (`none`); with no requested label
the first metadata column is used (`IndexError`, hence `none`, when
there is none). -/
def selectLabel (mf : MFrame) : Option String → Option String
  | some l => if l ∈ mf.cols then some l else none
  | none => mf.cols.head?

/-- The optional name-filtering step of `__init__`. -/
def applyNameFilter (st : LoadState) : Option (List String) → LoadState
  | some names => filter_samples_by_name st names
  | none => st

/-- The optional rule-filtering loop of `__init__`: each rule
`(label, op, value)` is applied in sequence. -/
def applyRuleFilters (st : LoadState) :
    Option (List (String × String × String)) → LoadState
  | some rules => rules.foldl
      (fun st (rule : String × String × String) =>
        filter_samples_by_rule st rule.2.1 rule.2.2 (some rule.1)) st
  | none => st

/-- `metagenomic_profile.__init__` (the parts relevant to the claims):
orientation check, optional filtering by names and by rules, grouping
column selection, sort, and construction of `references`. -/
def metagenomic_profile_init (abundance : DFrame) (metadata : MFrame)
    (metadata_label : Option String)
    (class_names : Option (List (String × String)))
    (filter_rules : Option (List (String × String × String)))
    (filter_labels : Option (List String)) : Option Profile :=
  let st0 : LoadState := ⟨check_abundance_data_shape abundance metadata, metadata⟩
  let st2 := applyRuleFilters (applyNameFilter st0 filter_labels) filter_rules
  (selectLabel st2.metadata metadata_label).bind (fun lbl =>
    let mdPairs := st2.metadata.rows.map
      (fun (r : String × List String) =>
        (r.1, r.2.getD (st2.metadata.cols.indexOf lbl) ""))
    (buildReferences class_names mdPairs).map
      (fun refs => ⟨st2.abundance, mdPairs.insertionSort mdLE, refs⟩))

end ProfileModel

section Pairwise

/-!
## The pairwise differential-abundance path (`enrichment.py`)
-/

/-- Contents of one written output file: a per-pair result table, or the
merged master table whose rows carry the added `Comparison` column. -/
inductive FileContent where
  | table : List OutRow → FileContent
  | master : List (OutRow × String) → FileContent
deriving DecidableEq

/-- Writing a file: existing content at the same path is overwritten. -/
def fsWrite (fs : List (String × FileContent)) (path : String)
    (c : FileContent) : List (String × FileContent) :=
  dictSet fs path c

/-- Reading a file back (`pd.DataFrame.from_csv`); `none` when the path
does not exist. -/
def fsRead (fs : List (String × FileContent)) (path : String) :
    Option FileContent :=
  dictLookup fs path

/-- A scipy statistic passed as a first-class value: its `__name__`
(used to build the output filename) and the statistic itself, an
external collaborator producing a p-value or NaN. -/
structure TestFn where
  name : String
  apply : List ℚ → List ℚ → PVal

/-- `df[attr]`: the column of values of one feature across a frame's
sample rows. -/
def colValues (df : DFrame) (attr : String) : List ℚ :=
  df.rows.map (fun r => r.2.getD (df.cols.indexOf attr) 0)

/-- `__split_data` from `enrichment.py`: one abundance sub-frame per
class, rows selected by `abundance_data.loc[references[key]]` in class
order.  (`.loc` on a sample id absent from the abundance data raises in
pandas; profiles built by the constructor always contain their class
members, so the default branch is never exercised.) -/
def split_data (p : Profile) : List DFrame :=
  p.references.map (fun kref =>
    ⟨p.abundance.cols,
     kref.2.map (fun s =>
       (s, ((p.abundance.rows.find? (fun r => r.1 = s)).map Prod.snd).getD []))⟩)

/-- Python `float(s)` on the FDR rate string, for the plain decimal
forms the callers use (optional sign, digits, optional fraction);
`none` models a `ValueError`.  The parsed value is passed to
`__fdr_correction` as `FDR`, which never uses it. -/
def pyFloat (s : String) : Option ℚ :=
  let cs := match s.toList with
    | '+' :: t => t
    | '-' :: t => t
    | cs => cs
  let ip := cs.takeWhile Char.isDigit
  let digitsVal : List Char → ℚ :=
    fun ds => ds.foldl (fun a c => 10 * a + ((c.toNat : ℚ) - 48)) 0
  match cs.dropWhile Char.isDigit with
  | [] => if ip.isEmpty then none else some (digitsVal ip)
  | '.' :: fp =>
    if fp.all Char.isDigit ∧ ¬(ip.isEmpty ∧ fp.isEmpty) then
      some (digitsVal ip + digitsVal fp / 10 ^ fp.length)
    else none
  | _ => none

/-- The correction dispatch in `__enrichment` (after the scan):
`correction == "bonferroni"` is tested first; otherwise the code calls
`correction.split("-")` — an `AttributeError` (`none`) when `correction`
is Python `None`, as happens for every call made by `__pairwise`. -/
def correctionDispatch (correction : Option String)
    (pvals : List (ℚ × String × String)) :
    Option (List (ℚ × String × String)) :=
  match correction with
  | none => none
  | some s =>
    if s = "bonferroni" then
      some (List.zipWith (fun q t => (q, t.2.1, t.2.2))
        (bonferonni_correction (pvals.map Prod.fst)) pvals)
    else if (s.splitOn "-").headI = "fdr" then
      match (s.splitOn "-").get? 1 with
      | none => none
      | some rateStr =>
        match pyFloat rateStr with
        | none => none
        | some _ =>
          let directions := pyDict (pvals.map (fun t => (t.2.1, t.2.2)))
          let ps := pyDict (pvals.map (fun t => (t.2.1, t.1)))
          (fdr_correction ps).mapM (fun c =>
            (dictLookup directions c.1).map (fun d => (c.2, c.1, d)))
    else some pvals

/-- `__enrichment` from `enrichment.py`: scan the two class frames,
apply the correction dispatch, write the table to
`output_dir + "/" + enrichment_type.__name__ + ".tab"` (overwriting any
previous file of that name) and return the filename. -/
def enrichment_step (df1 df2 : DFrame) (label1 label2 : String)
    (output_dir : String) (test : TestFn) (correction : Option String)
    (fs : List (String × FileContent)) :
    Option (List (String × FileContent) × String) :=
  let scan := enrichmentScan test.apply label1 label2
    (colValues df1) (colValues df2) df1.cols
  (correctionDispatch correction scan.1).bind (fun pvals =>
    (write_to_file pvals scan.2).map (fun rows =>
      let fname := output_dir ++ "/" ++ test.name ++ ".tab"
      (fsWrite fs fname (FileContent.table rows), fname)))

/-- The index pairs `i < j` enumerated by the two nested `range` loops of
`__pairwise`. -/
def pairIndices (n : ℕ) : List (ℕ × ℕ) :=
  (List.range (n - 1)).flatMap
    (fun i => (List.range' (i + 1) (n - i - 1)).map (fun j => (i, j)))

/-- `__pairwise` from `enrichment.py`: for every class pair `i < j`, call
`__enrichment` — with `stats.ttest_ind` regardless of the
`enrichment_type` argument, and with `correction` left at its `None`
default — collecting the returned filenames. -/
def pairwise_comparisons (ttest_ind : TestFn) (p : Profile)
    (output_dir : String) (_enrichment_type : TestFn)
    (fs : List (String × FileContent)) :
    Option (List (String × FileContent) × List String) :=
  let reference_keys := p.references.map Prod.fst
  let dataframes := split_data p
  (pairIndices reference_keys.length).foldlM
    (fun acc ij =>
      (enrichment_step (dataframes.getD ij.1 ⟨[], []⟩)
        (dataframes.getD ij.2 ⟨[], []⟩)
        (reference_keys.getD ij.1 "") (reference_keys.getD ij.2 "")
        output_dir ttest_ind none acc.1).map
        (fun r => (r.1, acc.2 ++ [r.2])))
    (fs, [])

/-- `ttest` from `enrichment.py` (the rank-sum entry point has the same
structure): with more than two classes, run the pairwise path, read each
returned file back, add a `Comparison` column holding
`fname.split(".")[0]`, concatenate everything into the master table and
write it; with two classes, a single `__enrichment` call on the first two
class frames. -/
def ttest_pipeline (ttest_ind : TestFn) (p : Profile) (output_dir : String)
    (correction : Option String) (fs : List (String × FileContent)) :
    Option (List (String × FileContent) × String) :=
  if 2 < p.references.length then
    match pairwise_comparisons ttest_ind p output_dir ttest_ind fs with
    | none => none
    | some (fs1, outfiles) =>
      match outfiles.mapM (fun fname =>
          (fsRead fs1 fname).bind (fun c =>
            match c with
            | FileContent.table rows =>
              some (rows.map (fun r => (r, (fname.splitOn ".").headI)))
            | FileContent.master _ => none)) with
      | none => none
      | some tagged =>
        let mfname := output_dir ++ "/enrichment_master.tab"
        some (fsWrite fs1 mfname (FileContent.master tagged.flatten), mfname)
  else
    match split_data p, p.references.map Prod.fst with
    | df1 :: df2 :: _, k1 :: k2 :: _ =>
      enrichment_step df1 df2 k1 k2 output_dir ttest_ind correction fs
    | _, _ => none

/-- A stand-in statistic for concrete evaluation: the pipeline is
parametric in the statistic (an external scipy collaborator); only the
`__name__` `"ttest_ind"` matters for filenames. -/
def exampleTest : TestFn := ⟨"ttest_ind", fun _ _ => PVal.val 1⟩

/-- A concrete profile with exactly three classes. -/
def profile3 : Profile :=
  ⟨⟨["f"], [("s1", [1]), ("s2", [2]), ("s3", [3])]⟩,
   [("s1", "a"), ("s2", "b"), ("s3", "c")],
   [("A", ["s1"]), ("B", ["s2"]), ("C", ["s3"])]⟩

end Pairwise

section PCoA

/-!
## PCoA double-centering (`__get_eig_pairs` in `pcoa.py`)
-/

/-- The matrix square `D @ D` (true matrix multiplication). -/
def matSq {n : ℕ} (D : Fin n → Fin n → ℚ) : Fin n → Fin n → ℚ :=
  fun i j => ∑ k, D i k * D k j

/-- `A_matrix = np.linalg.matrix_power(dist_matrix, 2) / -2` from
`pcoa.py` (the line commented `# 9.20`): `np.linalg.matrix_power`
performs true matrix multiplication `D @ D`, not an elementwise
square. -/
def A_matrix {n : ℕ} (D : Fin n → Fin n → ℚ) : Fin n → Fin n → ℚ :=
  fun i j => matSq D i j / (-2)

/-- `np.mean(M[i][:])`: the mean of row `i`.  Note that in the source the
"column" access `A_matrix[:][j]` also selects a row (`A[:]` is a copy of
`A`, so `A[:][j]` is row `j`), hence both centering terms in
`__get_eig_pairs` are row means. -/
def npRowMean {n : ℕ} (M : Fin n → Fin n → ℚ) (i : Fin n) : ℚ :=
  (∑ j, M i j) / n

/-- `np.mean(M)` over the whole matrix. -/
def npGrandMean {n : ℕ} (M : Fin n → Fin n → ℚ) : ℚ :=
  (∑ i, ∑ j, M i j) / (n * n)

/-- The double-centered matrix built by the loop commented `# 9.21`:
`s = A[i][j] - np.mean(A[i][:]) - np.mean(A[:][j]) + a_mean`. -/
def ctr_matrix {n : ℕ} (D : Fin n → Fin n → ℚ) : Fin n → Fin n → ℚ :=
  fun i j => A_matrix D i j - npRowMean (A_matrix D) i
    - npRowMean (A_matrix D) j + npGrandMean (A_matrix D)

/-- Modelled from the spec (claim C1): the matrix
`A = −½ · D∘D (elementwise square then scale)`, i.e.
`A[i][j] = -D[i][j]^2 / 2`, which is what Legendre's equation 9.20 (cited
in the source's own comment) prescribes. -/
def spec_A_matrix {n : ℕ} (D : Fin n → Fin n → ℚ) : Fin n → Fin n → ℚ :=
  fun i j => -(D i j) ^ 2 / 2

/-- The distance matrix of two samples at distance 1 (e.g. the euclidean
distances of the 1-dimensional points 0 and 1): symmetric with zero
diagonal. -/
def D2 : Fin 2 → Fin 2 → ℚ := fun i j => if i = j then 0 else 1

end PCoA

end CompAnalysis

namespace CompAnalysis

/-!
## Claims about the correction algorithms
-/

/-- **C3.** The Bonferroni correction maps each raw p-value `p`, in order,
to `min(p * n, 1.0)` where `n` is the number of p-values; in particular,
for a single p-value (`n = 1`, raw value at most 1) the corrected value
equals the raw value exactly. -/
theorem bonferonni_correction_min (pvalues : List ℚ) :
    bonferonni_correction pvalues
      = pvalues.map (fun p => min (p * (pvalues.length : ℚ)) 1) ∧
    (∀ p : ℚ, p ≤ 1 → bonferonni_correction [p] = [p]) := by
  have key : ∀ l : List ℚ,
      bonferonni_correction l = l.map (fun p => min (p * (l.length : ℚ)) 1) := by
    intro l
    unfold bonferonni_correction
    apply List.map_congr_left
    intro p _
    by_cases h : p * (l.length : ℚ) < 1
    · rw [if_pos h, min_eq_left h.le]
    · rw [if_neg h, min_eq_right (le_of_not_lt h)]
  refine ⟨key pvalues, fun p hp => ?_⟩
  rw [key [p]]
  simp only [List.length_cons, List.length_nil, zero_add, Nat.cast_one,
    List.map_cons, List.map_nil, mul_one]
  rw [min_eq_left hp]

/-- Witness for `bonferonni_correction_min` at a concrete input. -/
theorem bonferonni_correction_min_witness :
    bonferonni_correction [(1 : ℚ)/2] = [(1 : ℚ)/2] :=
  (bonferonni_correction_min [(1 : ℚ)/2]).2 ((1 : ℚ)/2) (by norm_num)

/-- **C2.** The FDR correction sorts the `(feature, p)` pairs ascending by
raw p-value and returns, for the pair of 1-indexed rank `i` in that order,
the value `raw_p * n / i` (`n` the number of pairs), with no
monotonic-enforcement step afterward: on the concrete 3-feature input
`[("a", 1/100), ("b", 4/100), ("c", 5/100)]` the output is
`[("a", 3/100), ("b", 6/100), ("c", 5/100)]`, whose rank-2 value exceeds
its rank-3 value. -/
theorem fdr_correction_literal_formula (pvalues : List (String × ℚ)) :
    (∃ s : List (String × ℚ), s.Perm pvalues ∧ s.Sorted sndLE ∧
      fdr_correction pvalues
        = s.enum.map (fun iv =>
            (iv.2.1, iv.2.2 * (pvalues.length : ℚ) / ((iv.1 : ℚ) + 1)))) ∧
    fdr_correction [("a", 1/100), ("b", 4/100), ("c", 5/100)]
        = [("a", 3/100), ("b", 6/100), ("c", 5/100)] ∧
    ((6 : ℚ)/100 > 5/100) := by
  refine ⟨⟨pvalues.insertionSort sndLE, List.perm_insertionSort sndLE pvalues,
      List.sorted_insertionSort sndLE pvalues, ?_⟩, ?_, by norm_num⟩
  · unfold fdr_correction
    apply List.map_congr_left
    intro iv _
    rw [mul_div_assoc]
  · norm_num [fdr_correction, List.insertionSort, List.orderedInsert, sndLE,
      List.enum, List.enumFrom]

/-!
## Claims about the written result tables
-/

theorem mapM_option_isSome {α β : Type} (f : α → Option β) (l : List α) :
    (l.mapM f).isSome ↔ ∀ a ∈ l, (f a).isSome := by
  induction l with
  | nil => exact ⟨fun _ a ha => absurd ha (List.not_mem_nil a), fun _ => rfl⟩
  | cons a l ih =>
    rw [List.mapM_cons, List.forall_mem_cons, ← ih]
    cases f a <;> cases l.mapM f <;> simp [Option.bind]

theorem renderRow_isSome (t : ℚ × String × String) :
    (renderRow t).isSome ↔ 0 < t.1 := by
  by_cases h : t.1 ≤ 0
  · simp [renderRow, round_sig, h, not_lt.mpr h]
  · simp [renderRow, round_sig, h, not_le.mp h]

/-- **C10.** Writing a result table is only defined when every numeric
p-value row is strictly positive: the significant-digit rounding takes
`log10` of each written p-value, so a row with p-value `0` (or below)
makes the write raise a math domain error (`none`) instead of producing
a file. -/
theorem write_to_file_defined_iff_pos (p_values : List (ℚ × String × String))
    (nans : List (PVal × String)) :
    ((write_to_file p_values nans).isSome ↔ ∀ t ∈ p_values, 0 < t.1) ∧
    (∀ name dir, ((0 : ℚ), name, dir) ∈ p_values →
      write_to_file p_values nans = none) := by
  have key : (write_to_file p_values nans).isSome ↔ ∀ t ∈ p_values, 0 < t.1 := by
    unfold write_to_file
    rw [Option.isSome_map', mapM_option_isSome]
    constructor
    · intro H t ht
      exact (renderRow_isSome t).mp (H t ((List.mem_insertionSort rowLE).mpr ht))
    · intro H t ht
      exact (renderRow_isSome t).mpr (H t ((List.mem_insertionSort rowLE).mp ht))
  refine ⟨key, fun name dir hmem => ?_⟩
  cases hw : write_to_file p_values nans with
  | none => rfl
  | some out =>
    have : (0 : ℚ) < 0 := key.mp (by rw [hw]; rfl) (0, name, dir) hmem
    exact absurd this (lt_irrefl 0)

/-- Witness for `write_to_file_defined_iff_pos`: a concrete table with a
zero p-value row cannot be written. -/
theorem write_to_file_defined_iff_pos_witness :
    write_to_file [((0 : ℚ), "f", "A")] [] = none :=
  (write_to_file_defined_iff_pos _ _).2 "f" "A" (by simp)

/-- **C5.** Every written table consists of the numeric rows sorted by the
Python tuple order (ascending p-value, ties broken by feature name, then
by direction label) followed by the NaN rows in their discovery order,
each rendered as an `n/a` row. -/
theorem write_to_file_row_order (p_values : List (ℚ × String × String))
    (nans : List (PVal × String)) (out : List OutRow)
    (h : write_to_file p_values nans = some out) :
    ∃ (s : List (ℚ × String × String)) (mains : List OutRow),
      s.Perm p_values ∧ s.Sorted rowLE ∧
      s.mapM renderRow = some mains ∧
      out = mains ++ nans.map (fun n => OutRow.na n.2) := by
  unfold write_to_file at h
  cases hm : (p_values.insertionSort rowLE).mapM renderRow with
  | none => rw [hm] at h; simp at h
  | some mains =>
    rw [hm] at h
    simp only [Option.map_some', Option.some.injEq] at h
    exact ⟨p_values.insertionSort rowLE, mains,
      List.perm_insertionSort rowLE p_values,
      List.sorted_insertionSort rowLE p_values, hm, h.symm⟩

theorem round_sig_one : round_sig 1 4 = some 1 := by
  rw [round_sig, if_neg (by norm_num), Int.log_one_right]
  norm_num [pyRound, roundHalfEven]

/-- Witness for `write_to_file_row_order` at a concrete input with one
numeric row and one NaN row. -/
theorem write_to_file_row_order_witness :
    ∃ (s : List (ℚ × String × String)) (mains : List OutRow),
      s.Perm [((1 : ℚ), "f", "A")] ∧ s.Sorted rowLE ∧
      s.mapM renderRow = some mains ∧
      [OutRow.full "f" 1 "A", OutRow.na "g"]
        = mains ++ [(PVal.nan, "g")].map (fun n => OutRow.na n.2) :=
  write_to_file_row_order _ _ _ (by
    have h1 : renderRow ((1 : ℚ), "f", "A") = some (OutRow.full "f" 1 "A") := by
      simp [renderRow, round_sig_one]
    have h3 : List.mapM renderRow [((1 : ℚ), "f", "A")]
        = some [OutRow.full "f" 1 "A"] := by
      rw [List.mapM_cons, h1]; rfl
    rw [write_to_file,
      show ([((1 : ℚ), "f", "A")].insertionSort rowLE)
          = [((1 : ℚ), "f", "A")] from rfl, h3]
    rfl)

/-- **C6.** In a two-class comparison, every numeric row's direction label
is the first class's label when the feature's mean in the first class is
strictly greater, the second class's label when the second mean is
strictly greater, and `"n/a"` when the means coincide. -/
theorem enrichment_direction (test : List ℚ → List ℚ → PVal)
    (label1 label2 : String) (col1 col2 : String → List ℚ)
    (attrs : List String) (p : ℚ) (a : String) (d : String)
    (h : (p, a, d) ∈ (enrichmentScan test label1 label2 col1 col2 attrs).1) :
    (nanmean (col2 a) < nanmean (col1 a) → d = label1) ∧
    (nanmean (col1 a) < nanmean (col2 a) → d = label2) ∧
    (nanmean (col1 a) = nanmean (col2 a) → d = "n/a") := by
  induction attrs with
  | nil => simp [enrichmentScan] at h
  | cons attr rest ih =>
    cases htest : test (col1 attr) (col2 attr) with
    | nan =>
      rw [enrichmentScan, htest] at h
      exact ih h
    | val q =>
      rw [enrichmentScan, htest] at h
      rcases List.mem_cons.mp h with heq | htail
      · simp only [Prod.mk.injEq] at heq
        obtain ⟨-, ha, hd⟩ := heq
        subst ha
        refine ⟨fun hc => ?_, fun hc => ?_, fun hc => ?_⟩
        · rw [hd, if_pos hc]
        · rw [hd, if_neg (asymm hc), if_pos hc]
        · rw [hd, if_neg (by rw [hc]; exact lt_irrefl _),
            if_neg (by rw [hc]; exact lt_irrefl _)]
      · exact ih htail

/-- Witness for `enrichment_direction` at a concrete two-class input. -/
theorem enrichment_direction_witness :
    (nanmean [0] < nanmean [1] → "A" = "A") ∧
    (nanmean [1] < nanmean [0] → "A" = "B") ∧
    (nanmean [1] = nanmean [0] → "A" = "n/a") :=
  enrichment_direction (fun _ _ => PVal.val 1) "A" "B"
    (fun _ => [1]) (fun _ => [0]) ["f"] 1 "f" "A"
    (by norm_num [enrichmentScan, nanmean])

/-!
## Claims about normalization and PCoA
-/

theorem list_sum_map_div (l : List ℚ) (S : ℚ) :
    (l.map (fun x => x / S)).sum = l.sum / S := by
  induction l with
  | nil => simp
  | cons a l ih => simp [ih, add_div]

/-- **C9.** Relative normalization keeps the feature and sample ordering
and replaces each row by its elementwise division by the row sum; every
row with non-zero original sum therefore sums to exactly 1 after
normalization. -/
theorem relative_normalization_rows (p : Profile) :
    (relative_normalization p).abundance.cols = p.abundance.cols ∧
    (relative_normalization p).abundance.rows
      = p.abundance.rows.map (fun r => (r.1, r.2.map (fun x => x / r.2.sum))) ∧
    (∀ r ∈ p.abundance.rows, r.2.sum ≠ 0 →
      (r.2.map (fun x => x / r.2.sum)).sum = 1) := by
  refine ⟨rfl, rfl, fun r _ h => ?_⟩
  rw [list_sum_map_div]
  exact div_self h

/-- Witness for `relative_normalization_rows` at a concrete profile. -/
theorem relative_normalization_rows_witness :
    (([(2 : ℚ)]).map (fun x => x / ([(2 : ℚ)]).sum)).sum = 1 :=
  (relative_normalization_rows
      ⟨⟨["f"], [("s", [2])]⟩, [("s", "a")], [("class_a", ["s"])]⟩).2.2
    ("s", [2]) (by simp) (by norm_num)

/-- **C1** fails on the code: `__get_eig_pairs` computes
`np.linalg.matrix_power(dist_matrix, 2) / -2`, the true matrix product
`D @ D` scaled by `-1/2`, not the elementwise square `-D[i][j]^2/2`
required by the claim (and by Legendre's eq. 9.20 cited in the source's
own comment).  On the valid 2-sample distance matrix `D2` the two
disagree at cell `(0,0)`. -/
theorem pcoa_matrix_power_bug :
    A_matrix D2 0 0 = -(1/2) ∧ spec_A_matrix D2 0 0 = 0 ∧
    A_matrix D2 ≠ spec_A_matrix D2 := by
  have h1 : A_matrix D2 0 0 = -(1/2) := by
    norm_num [A_matrix, matSq, D2, Fin.sum_univ_two]
  have h2 : spec_A_matrix D2 0 0 = 0 := by
    norm_num [spec_A_matrix, D2]
  refine ⟨h1, h2, fun hcontra => ?_⟩
  have := congrFun (congrFun hcontra 0) 0
  rw [h1, h2] at this
  norm_num at this

/-!
## Claims about profile construction
-/

theorem foldl_fixed {α β : Type} (f : α → β → α) (hf : ∀ a b, f a b = a)
    (l : List β) (init : α) : l.foldl f init = init := by
  induction l generalizing init with
  | nil => rfl
  | cons b l ih => rw [List.foldl_cons, hf]; exact ih init

theorem filter_samples_by_rule_id (st : LoadState) (op value : String)
    (label : Option String) : filter_samples_by_rule st op value label = st :=
  foldl_fixed _ (fun _ _ => rfl) st.metadata.rows st

theorem applyNameFilter_id (st : LoadState) (o : Option (List String)) :
    applyNameFilter st o = st := by
  cases o <;> rfl

theorem applyRuleFilters_id (st : LoadState)
    (o : Option (List (String × String × String))) :
    applyRuleFilters st o = st := by
  cases o with
  | none => rfl
  | some rules =>
    exact foldl_fixed _ (fun a b => filter_samples_by_rule_id a b.2.1 b.2.2 (some b.1))
      rules st

theorem dictSet_fresh {α : Type} {d : List (String × α)} {k : String}
    (h : k ∉ d.map Prod.fst) (v : α) : dictSet d k v = d ++ [(k, v)] := by
  have hc : ¬(d.any (fun e => e.1 = k) = true) := by
    rw [List.any_eq_true]
    rintro ⟨e, he, heq⟩
    rw [decide_eq_true_eq] at heq
    have : e.1 ∈ d.map Prod.fst := List.mem_map_of_mem Prod.fst he
    rw [heq] at this
    exact h this
  simp only [dictSet]
  rw [if_neg hc]

theorem dictAppend_last {init : List (String × List String)} {k : String}
    (h : k ∉ init.map Prod.fst) (cur : List String) (s : String) :
    dictAppend (init ++ [(k, cur)]) k s = init ++ [(k, cur ++ [s])] := by
  simp only [dictAppend, List.map_append]
  congr 1
  · calc init.map (fun e => if e.1 = k then (e.1, e.2 ++ [s]) else e)
        = init.map id := List.map_congr_left (fun e he =>
          if_neg (fun (heq : e.1 = k) =>
            h (heq ▸ List.mem_map_of_mem Prod.fst he)))
      _ = init := List.map_id init
  · simp

theorem nodup_concat_iff {α : Type} {l : List α} {x : α} :
    (l ++ [x]).Nodup ↔ l.Nodup ∧ x ∉ l := by
  rw [List.nodup_append]
  constructor
  · rintro ⟨h1, -, h3⟩
    exact ⟨h1, fun hx => h3 hx (List.mem_singleton_self x)⟩
  · rintro ⟨h1, h2⟩
    exact ⟨h1, List.nodup_singleton x,
      fun a ha hax => h2 ((List.mem_singleton.mp hax) ▸ ha)⟩

theorem refLoop_eq_refRuns (cn : Option (List (String × String)))
    (hinj : ∀ u w k, className cn u = some k → className cn w = some k → u = w)
    (rest : List (String × String)) :
    ∀ (refType kcur : String) (init : List (String × List String))
      (cur : List String),
    className cn refType = some kcur →
    ((init.map Prod.fst) ++ [kcur]).Nodup →
    (∀ u k, className cn u = some k →
      k ∈ init.map Prod.fst ++ [kcur] → u ≤ refType) →
    List.Chain (fun a b : String => a ≤ b) refType (rest.map Prod.snd) →
    refLoop cn rest refType (init ++ [(kcur, cur)])
      = (refRuns cn rest refType kcur cur).map (fun out => init ++ out) := by
  induction rest with
  | nil => intro refType kcur init cur _ _ _ _; rfl
  | cons sv rest ih =>
    intro refType kcur init cur hk hnodup hbound hchain
    obtain ⟨samp, v⟩ := sv
    rw [List.map_cons, List.chain_cons] at hchain
    obtain ⟨hle, hchain'⟩ := hchain
    have hkcur_fresh : kcur ∉ init.map Prod.fst := (nodup_concat_iff.mp hnodup).2
    by_cases hv : v = refType
    · subst hv
      simp only [refLoop, refRuns, if_pos rfl, hk, Option.some_bind]
      rw [dictAppend_last hkcur_fresh]
      exact ih v kcur init (cur ++ [samp]) hk hnodup hbound hchain'
    · have hlt : refType < v := lt_of_le_of_ne hle (fun e => hv e.symm)
      simp only [refLoop, refRuns, if_neg hv]
      cases hkv : className cn v with
      | none => rfl
      | some k =>
        simp only [Option.some_bind]
        have hfresh : k ∉ init.map Prod.fst ++ [kcur] := by
          intro hmem
          exact absurd (hbound v k hkv hmem) (not_le.mpr hlt)
        have hfresh' : k ∉ (init ++ [(kcur, cur)]).map Prod.fst := by
          rw [List.map_append]
          simpa using hfresh
        rw [dictSet_fresh hfresh', dictAppend_last hfresh', List.nil_append]
        have hnodup' : ((init ++ [(kcur, cur)]).map Prod.fst ++ [k]).Nodup := by
          rw [nodup_concat_iff]
          exact ⟨by simpa using hnodup, hfresh'⟩
        have hbound' : ∀ u k', className cn u = some k' →
            k' ∈ (init ++ [(kcur, cur)]).map Prod.fst ++ [k] → u ≤ v := by
          intro u k' hk' hmem
          rcases List.mem_append.mp hmem with hm | hm
          · rw [List.map_append] at hm
            have : k' ∈ init.map Prod.fst ++ [kcur] := by simpa using hm
            exact le_trans (hbound u k' hk' this) hle
          · have hkk : k' = k := List.mem_singleton.mp hm
            subst hkk
            exact le_of_eq (hinj u v k' hk' hkv)
        rw [ih v k (init ++ [(kcur, cur)]) [samp] hkv hnodup' hbound' hchain']
        cases refRuns cn rest v k [samp] <;> simp

theorem refRuns_flatten (cn : Option (List (String × String))) :
    ∀ (rest : List (String × String)) (refType kcur : String)
      (cur : List String) (out : List (String × List String)),
    refRuns cn rest refType kcur cur = some out →
    (out.map Prod.snd).flatten = cur ++ rest.map Prod.fst := by
  intro rest
  induction rest with
  | nil =>
    intro refType kcur cur out h
    simp only [refRuns, Option.some.injEq] at h
    subst h
    simp
  | cons sv rest ih =>
    intro refType kcur cur out h
    obtain ⟨samp, v⟩ := sv
    by_cases hv : v = refType
    · rw [refRuns, if_pos hv] at h
      have := ih refType kcur (cur ++ [samp]) out h
      simpa [List.append_assoc] using this
    · rw [refRuns, if_neg hv] at h
      cases hkv : className cn v with
      | none => rw [hkv] at h; simp at h
      | some k =>
        rw [hkv, Option.some_bind] at h
        cases hr : refRuns cn rest v k [samp] with
        | none => rw [hr] at h; simp at h
        | some out' =>
          rw [hr] at h
          simp only [Option.map_some', Option.some.injEq] at h
          subst h
          have := ih v k [samp] out' hr
          simp [this]

theorem refRuns_nonempty (cn : Option (List (String × String))) :
    ∀ (rest : List (String × String)) (refType kcur : String)
      (cur : List String) (out : List (String × List String)),
    refRuns cn rest refType kcur cur = some out → cur ≠ [] →
    ∀ r ∈ out, r.2 ≠ [] := by
  intro rest
  induction rest with
  | nil =>
    intro refType kcur cur out h hcur
    simp only [refRuns, Option.some.injEq] at h
    subst h
    intro r hr
    rw [List.mem_singleton.mp hr]
    exact hcur
  | cons sv rest ih =>
    intro refType kcur cur out h hcur
    obtain ⟨samp, v⟩ := sv
    by_cases hv : v = refType
    · rw [refRuns, if_pos hv] at h
      exact ih refType kcur (cur ++ [samp]) out h (by simp)
    · rw [refRuns, if_neg hv] at h
      cases hkv : className cn v with
      | none => rw [hkv] at h; simp at h
      | some k =>
        rw [hkv, Option.some_bind] at h
        cases hr : refRuns cn rest v k [samp] with
        | none => rw [hr] at h; simp at h
        | some out' =>
          rw [hr] at h
          simp only [Option.map_some', Option.some.injEq] at h
          subst h
          intro r hr'
          rcases List.mem_cons.mp hr' with heq | htail
          · rw [heq]
            exact hcur
          · exact ih v k [samp] out' hr (by simp) r htail

theorem buildReferences_partition (cn : Option (List (String × String)))
    (md : List (String × String)) (refs : List (String × List String))
    (hnodup : (md.map Prod.fst).Nodup)
    (hinj : ∀ u w k, className cn u = some k → className cn w = some k → u = w)
    (h : buildReferences cn md = some refs) :
    (∀ r ∈ refs, r.2 ≠ []) ∧
    List.Pairwise (fun a b => ∀ s ∈ a.2, s ∉ b.2) refs ∧
    ((refs.map Prod.snd).flatten).Perm (md.map Prod.fst) := by
  have hperm_sort : (md.insertionSort mdLE).Perm md := List.perm_insertionSort mdLE md
  have hsorted : List.Sorted mdLE (md.insertionSort mdLE) :=
    List.sorted_insertionSort mdLE md
  rw [buildReferences] at h
  cases hs : md.insertionSort mdLE with
  | nil => rw [hs] at h; simp at h
  | cons hd tl =>
    obtain ⟨s0, v0⟩ := hd
    rw [hs] at h
    cases hk0 : className cn v0 with
    | none => simp [hk0] at h
    | some k0 =>
      simp only [hk0, Option.some_bind] at h
      have hinit : dictAppend (dictSet [] k0 []) k0 s0 = [] ++ [(k0, [s0])] := by
        rw [show dictSet ([] : List (String × List String)) k0 [] = [] ++ [(k0, [])]
            from dictSet_fresh (by simp) []]
        rw [dictAppend_last (by simp) [] s0]
        simp
      rw [hinit] at h
      rw [hs] at hsorted
      have hchain : List.Chain (fun a b : String => a ≤ b) v0 (tl.map Prod.snd) := by
        rw [List.chain_iff_pairwise]
        have hpair : List.Pairwise (fun a b : String => a ≤ b)
            (((s0, v0) :: tl).map Prod.snd) :=
          List.Pairwise.map Prod.snd (fun a b (hab : mdLE a b) => hab) hsorted
        simpa using hpair
      rw [refLoop_eq_refRuns cn hinj tl v0 k0 [] [s0] hk0 (by simp)
        (fun u k hk hmem => by
          have : k = k0 := by simpa using hmem
          subst this
          exact le_of_eq (hinj u v0 k hk hk0)) hchain] at h
      cases hr : refRuns cn tl v0 k0 [s0] with
      | none => rw [hr] at h; simp at h
      | some out =>
        rw [hr] at h
        simp only [Option.map_some', List.nil_append, Option.some.injEq] at h
        subst h
        have hflat : (out.map Prod.snd).flatten = [s0] ++ tl.map Prod.fst :=
          refRuns_flatten cn tl v0 k0 [s0] out hr
        have hflat' : (out.map Prod.snd).flatten
            = (md.insertionSort mdLE).map Prod.fst := by
          rw [hflat, hs]
          rfl
        have hperm : ((out.map Prod.snd).flatten).Perm (md.map Prod.fst) := by
          rw [hflat']
          exact hperm_sort.map Prod.fst
        refine ⟨refRuns_nonempty cn tl v0 k0 [s0] out hr (by simp), ?_, hperm⟩
        have hflatnodup : ((out.map Prod.snd).flatten).Nodup :=
          (hperm.nodup_iff).mpr hnodup
        have := List.nodup_flatten.mp hflatnodup
        rw [List.pairwise_map] at this
        exact this.2.imp (fun hd => hd)

/-- **C7** fails on the code as stated: with a `class_names` mapping that
sends two distinct grouping values to the same display name, the `dict`
write on a value change resets the shared entry, losing the earlier
class's samples.  Metadata with samples `s1 ↦ a`, `s2 ↦ b` and the
mapping `{a: X, b: X}` yields `references = {X: [s2]}`: `s1` is in no
class list, so the lists are not a partition of the sample set. -/
theorem references_partition_counterexample :
    metagenomic_profile_init ⟨["f1"], [("s1", [1]), ("s2", [2])]⟩
      ⟨["grp"], [("s1", ["a"]), ("s2", ["b"])]⟩
      none (some [("a", "X"), ("b", "X")]) none none
      = some ⟨⟨["f1"], [("s1", [1]), ("s2", [2])]⟩,
          [("s1", "a"), ("s2", "b")], [("X", ["s2"])]⟩ ∧
    "s1" ∉ (([("X", ["s2"])].map Prod.snd).flatten) := by
  have hab : ("a" : String) ≤ "b" := by
    rw [String.le_iff_toList_le]
    decide
  have hab' : (['a'] : List Char) ≤ ['b'] := by decide
  constructor
  · simp [metagenomic_profile_init, applyNameFilter, applyRuleFilters,
      check_abundance_data_shape, selectLabel, buildReferences, refLoop,
      className, dictLookup, dictSet, dictAppend,
      List.insertionSort, List.orderedInsert, mdLE, hab, hab']
  · simp

theorem className_default_inj (u w k : String)
    (hu : className none u = some k) (hw : className none w = some k) :
    u = w := by
  simp only [className, Option.some.injEq] at hu hw
  have h : "class_" ++ u = "class_" ++ w := hu.trans hw.symm
  have hd : ("class_" ++ u).data = ("class_" ++ w).data := congrArg String.data h
  rw [String.data_append, String.data_append] at hd
  exact String.toList_inj.mp (List.append_cancel_left hd)

/-- **C7**, amended: for every profile the constructor produces from
metadata with distinct sample identifiers, *provided distinct grouping
values receive distinct class names* (always true for the default
`class_<value>` naming; a non-injective `class_names` mapping is the
counterexample above), the class reference lists are non-empty, pairwise
disjoint, and their concatenation contains every metadata sample
exactly once. -/
theorem profile_references_partition
    (abundance : DFrame) (metadata : MFrame) (metadata_label : Option String)
    (class_names : Option (List (String × String)))
    (filter_rules : Option (List (String × String × String)))
    (filter_labels : Option (List String)) (P : Profile)
    (hnodup : (metadata.rows.map Prod.fst).Nodup)
    (hinj : ∀ u w k, className class_names u = some k →
      className class_names w = some k → u = w)
    (h : metagenomic_profile_init abundance metadata metadata_label class_names
      filter_rules filter_labels = some P) :
    (∀ r ∈ P.references, r.2 ≠ []) ∧
    List.Pairwise (fun a b => ∀ s ∈ a.2, s ∉ b.2) P.references ∧
    ((P.references.map Prod.snd).flatten).Perm (metadata.rows.map Prod.fst) := by
  simp only [metagenomic_profile_init, applyNameFilter_id, applyRuleFilters_id] at h
  cases hl : selectLabel metadata metadata_label with
  | none => rw [hl] at h; simp at h
  | some lbl =>
    rw [hl, Option.some_bind] at h
    cases hb : buildReferences class_names (metadata.rows.map
        (fun r => (r.1, r.2.getD (metadata.cols.indexOf lbl) ""))) with
    | none => rw [hb] at h; simp at h
    | some refs =>
      rw [hb] at h
      simp only [Option.map_some', Option.some.injEq] at h
      have hrefs : P.references = refs := by rw [← h]
      have hmdn : (((metadata.rows.map
          (fun r => (r.1, r.2.getD (metadata.cols.indexOf lbl) ""))).map
            Prod.fst)).Nodup := by
        simpa [List.map_map, Function.comp] using hnodup
      have hmain := buildReferences_partition class_names _ refs hmdn hinj hb
      rw [hrefs]
      refine ⟨hmain.1, hmain.2.1, ?_⟩
      have hperm := hmain.2.2
      simpa [List.map_map, Function.comp] using hperm

/-- Evaluation of the constructor on a concrete two-class input with
default class names; the (discarded) filter argument does not affect the
result. -/
theorem profile_construct_default_eval (fl : Option (List String)) :
    metagenomic_profile_init ⟨["f1"], [("s1", [1]), ("s2", [2])]⟩
      ⟨["grp"], [("s1", ["a"]), ("s2", ["b"])]⟩ none none none fl
      = some ⟨⟨["f1"], [("s1", [1]), ("s2", [2])]⟩,
          [("s1", "a"), ("s2", "b")],
          [("class_a", ["s1"]), ("class_b", ["s2"])]⟩ := by
  have hab : ("a" : String) ≤ "b" := by
    rw [String.le_iff_toList_le]
    decide
  have hab' : (['a'] : List Char) ≤ ['b'] := by decide
  simp [metagenomic_profile_init, applyNameFilter_id, applyRuleFilters,
    check_abundance_data_shape, selectLabel, buildReferences, refLoop,
    className, dictLookup, dictSet, dictAppend,
    List.insertionSort, List.orderedInsert, mdLE, hab, hab']

/-- Witness for `profile_references_partition` at a concrete profile with
default class names. -/
theorem profile_references_partition_witness :
    (∀ r ∈ [("class_a", ["s1"]), ("class_b", ["s2"])],
      r.2 ≠ ([] : List String)) ∧
    List.Pairwise (fun a b => ∀ s ∈ a.2, s ∉ b.2)
      [("class_a", ["s1"]), ("class_b", ["s2"])] ∧
    (([("class_a", ["s1"]), ("class_b", ["s2"])].map Prod.snd).flatten).Perm
      (([("s1", ["a"]), ("s2", ["b"])] : List (String × List String)).map
        Prod.fst) :=
  profile_references_partition ⟨["f1"], [("s1", [1]), ("s2", [2])]⟩
    ⟨["grp"], [("s1", ["a"]), ("s2", ["b"])]⟩ none none none none
    ⟨⟨["f1"], [("s1", [1]), ("s2", [2])]⟩, [("s1", "a"), ("s2", "b")],
      [("class_a", ["s1"]), ("class_b", ["s2"])]⟩
    (by decide) className_default_inj (profile_construct_default_eval none)

/-- **C8** fails on the code: both filter helpers call `pandas.drop`
without `inplace=True` and discard the returned frame, so filtering
removes nothing.  Constructing a profile from two samples while
filtering out `s1` by name still yields `s1` in the abundance matrix,
the metadata, and the class grouping. -/
theorem filtering_noop_bug :
    (∀ (st : LoadState) (names : List String),
      filter_samples_by_name st names = st) ∧
    (∀ (st : LoadState) (op value : String) (label : Option String),
      filter_samples_by_rule st op value label = st) ∧
    metagenomic_profile_init ⟨["f1"], [("s1", [1]), ("s2", [2])]⟩
      ⟨["grp"], [("s1", ["a"]), ("s2", ["b"])]⟩ none none none (some ["s1"])
      = some ⟨⟨["f1"], [("s1", [1]), ("s2", [2])]⟩,
          [("s1", "a"), ("s2", "b")],
          [("class_a", ["s1"]), ("class_b", ["s2"])]⟩ ∧
    "s1" ∈ ([("s1", [(1 : ℚ)]), ("s2", [2])].map Prod.fst) :=
  ⟨fun _ _ => rfl, filter_samples_by_rule_id,
    profile_construct_default_eval (some ["s1"]), by simp⟩

/-- **C4** fails on the code: `__pairwise` calls `__enrichment` with its
`correction` argument left at the Python default `None`, and
`__enrichment` then evaluates `correction.split("-")` — an
`AttributeError` — so on a three-class profile the pairwise path raises
before writing any table, for every statistic and every caller-supplied
correction.  Moreover (second part) every `__enrichment` call writes to
the same path `output_dir + "/" + test.__name__ + ".tab"`, independent
of the class pair, so even a non-raising run would overwrite each
per-pair table and tag every master row identically. -/
theorem pairwise_path_crash :
    (∀ (ttest_ind : TestFn) (correction : Option String)
       (fs : List (String × FileContent)),
      ttest_pipeline ttest_ind profile3 "out" correction fs = none) ∧
    (∀ (df1 df2 : DFrame) (l1 l2 : String) (test : TestFn)
       (corr : Option String) (fs fs' : List (String × FileContent))
       (fname : String),
      enrichment_step df1 df2 l1 l2 "out" test corr fs = some (fs', fname) →
      fname = "out" ++ "/" ++ test.name ++ ".tab") := by
  constructor
  · intro ttest_ind correction fs
    rfl
  · intro df1 df2 l1 l2 test corr fs fs' fname h
    simp only [enrichment_step] at h
    cases hc : correctionDispatch corr (enrichmentScan test.apply l1 l2
        (colValues df1) (colValues df2) df1.cols).1 with
    | none => rw [hc] at h; simp at h
    | some pvals =>
      rw [hc, Option.some_bind] at h
      cases hw : write_to_file pvals (enrichmentScan test.apply l1 l2
          (colValues df1) (colValues df2) df1.cols).2 with
      | none => rw [hw] at h; simp at h
      | some rows =>
        rw [hw] at h
        simp only [Option.map_some', Option.some.injEq] at h
        exact (congrArg Prod.snd h).symm

/-- Witness for `pairwise_path_crash` at a successful concrete
`__enrichment` call: the returned filename is the fixed per-test path. -/
theorem pairwise_path_crash_witness :
    "out/ttest_ind.tab" = "out" ++ "/" ++ exampleTest.name ++ ".tab" :=
  pairwise_path_crash.2 ⟨["f"], [("x", [1])]⟩ ⟨["f"], [("y", [0])]⟩ "A" "B"
    exampleTest (some "bonferroni") []
    [("out/ttest_ind.tab", FileContent.table [OutRow.full "f" 1 "A"])]
    "out/ttest_ind.tab" (by
      have hr : renderRow ((1 : ℚ), "f", "A") = some (OutRow.full "f" 1 "A") := by
        simp [renderRow, round_sig_one]
      have h3 : List.mapM renderRow [((1 : ℚ), "f", "A")]
          = some [OutRow.full "f" 1 "A"] := by
        rw [List.mapM_cons, hr]; rfl
      have h1 : write_to_file [((1 : ℚ), "f", "A")] []
          = some [OutRow.full "f" 1 "A"] := by
        rw [write_to_file, show ([((1 : ℚ), "f", "A")].insertionSort rowLE)
            = [((1 : ℚ), "f", "A")] from rfl, h3]
        rfl
      have h2 : correctionDispatch (some "bonferroni") [((1 : ℚ), "f", "A")]
          = some [((1 : ℚ), "f", "A")] := by
        norm_num [correctionDispatch, bonferonni_correction]
      have h0 : enrichmentScan exampleTest.apply "A" "B"
          (colValues ⟨["f"], [("x", [1])]⟩) (colValues ⟨["f"], [("y", [0])]⟩)
          ["f"] = ([((1 : ℚ), "f", "A")], []) := by
        norm_num [enrichmentScan, exampleTest, colValues, nanmean]
      simp only [enrichment_step]
      rw [h0]
      simp [h2, h1, fsWrite, dictSet, exampleTest])
